import Mathlib

/-!
Verification of the scene-detection core of the Python-Scene-Detect repository.

All definitions are shallow embeddings of `src/scenedetect/scene_manager.py`
and `src/scenedetect/cli_context.py`.  FrameTimecode values are represented by
their frame index (a `Nat`); the video's base timecode is the timecode of
frame zero.  Pixel data is opaque: a decoded frame is represented by an
abstract identifier (`Nat`), and the numpy strided-downscale operation is an
abstract function carried by the video source.  Scene detectors live outside
the repository's source; they are parameters of the scene manager, modelled
as the functions the manager calls on them.
-/

namespace SceneDetect

/-- `DEFAULT_MIN_WIDTH` from `scene_manager.py`. -/
def DEFAULT_MIN_WIDTH : Nat := 256

/-- Embedding of `compute_downscale_factor` (scene_manager.py lines 86-103).
The Python assert (both arguments at least 1) becomes a hypothesis of the
theorems about this function. -/
def compute_downscale_factor (frameWidth : Nat) (effectiveWidth : Nat) : Nat :=
  if frameWidth < effectiveWidth then 1 else frameWidth / effectiveWidth

/-- Loop of `get_scenes_from_cuts` (scene_manager.py lines 137-142): the
running `last_cut` pairs with each cut in turn, then a final scene runs from
the last cut to `endFrame`. -/
def scenesAux (lastCut : Nat) : List Nat → Nat → List (Nat × Nat)
  | [], endFrame => [(lastCut, endFrame)]
  | c :: rest, endFrame => (lastCut, c) :: scenesAux c rest endFrame

/-- Embedding of `get_scenes_from_cuts` (scene_manager.py lines 106-144).
`base` is the frame index of `base_timecode` (0 for a video's own base
timecode); `base + startFrame` and `base + startFrame + numFrames` are the
frame indices of the timecodes the Python code builds by timecode addition. -/
def get_scenes_from_cuts (cutList : List Nat) (base : Nat) (numFrames : Nat)
    (startFrame : Nat) : List (Nat × Nat) :=
  if cutList.isEmpty then [(base + startFrame, base + startFrame + numFrames)]
  else scenesAux (base + startFrame) cutList (base + startFrame + numFrames)

/-- Python's ordering on scene tuples `(start, end)` of FrameTimecodes:
lexicographic comparison on the underlying frame indices.  This is the order
used by `sorted(...)` in `SceneManager.get_scene_list`. -/
def sceneLe (p q : Nat × Nat) : Prop :=
  p.1 < q.1 ∨ (p.1 = q.1 ∧ p.2 ≤ q.2)

instance : DecidableRel sceneLe := fun p q => by
  unfold sceneLe; infer_instance

/-- State of a `SceneManager` instance (scene_manager.py lines 478-488):
cut list, event list, frame counters, recorded base timecode, whether a
StatsManager is attached, and the downscale configuration. -/
structure SMState where
  cuttingList : List Nat
  eventList : List (Nat × Nat)
  numFrames : Nat
  startFrame : Nat
  baseTimecode : Option Nat
  statsPresent : Bool
  downscale : Nat
  autoDownscale : Bool
deriving DecidableEq

/-- Embedding of `SceneManager._get_cutting_list` (lines 617-621):
deduplicate then sort ascending.  Python's `sorted` is a stable sort,
modelled by `List.insertionSort`. -/
def get_cutting_list (cuttingList : List Nat) : List Nat :=
  List.insertionSort (· ≤ ·) cuttingList.dedup

/-- The `if base_timecode is None: base_timecode = self._base_timecode`
prologue shared by the three accessor methods. -/
def resolveBase (sm : SMState) (base : Option Nat) : Option Nat :=
  match base with
  | some b => some b
  | none => sm.baseTimecode

/-- Embedding of `SceneManager.get_cut_list` (lines 594-615).  The Python
code wraps each cut frame number as `FrameTimecode(cut, base_timecode)`,
whose frame index is the cut itself, so the map keeps each cut unchanged. -/
def get_cut_list (sm : SMState) (base : Option Nat) : List Nat :=
  match resolveBase sm base with
  | none => []
  | some _ => (get_cutting_list sm.cuttingList).map (fun cut => cut)

/-- Embedding of `SceneManager.get_event_list` (lines 623-638): each stored
event pair is shifted by the base timecode. -/
def get_event_list (sm : SMState) (base : Option Nat) : List (Nat × Nat) :=
  match resolveBase sm base with
  | none => []
  | some b => sm.eventList.map (fun se => (b + se.1, b + se.2))

/-- Embedding of `SceneManager.get_scene_list` (lines 572-592): the event
list and the scenes built from the cut list are concatenated and sorted by
Python's tuple order. -/
def get_scene_list (sm : SMState) (base : Option Nat) : List (Nat × Nat) :=
  match resolveBase sm base with
  | none => []
  | some b =>
    List.insertionSort sceneLe
      (get_event_list sm (some b) ++
        get_scenes_from_cuts (get_cut_list sm (some b)) b sm.numFrames sm.startFrame)

/-- A dense scene detector, as seen by the SceneManager: the three methods
`detect_scenes` and `_process_frame` call.  Detector code is outside this
repository's sources, so behaviour is an arbitrary function; `processFrame`
receives the frame number and the current decoded frame (if any). -/
structure Detector where
  ipr : Nat → Bool
  processFrame : Nat → Option Nat → List Nat
  postProcess : Nat → Nat → List Nat

/-- A sparse scene detector: `process_frame` returns event pairs. -/
structure SparseDetector where
  processFrame : Nat → Option Nat → List (Nat × Nat)

/-- A frame source (`VideoStream`): total frame count, frame width, decoded
content per frame index, and the abstract effect of the numpy stride
downscale `frame_im[::k, ::k, :]` on a frame. -/
structure Video where
  numFrames : Nat
  frameWidth : Nat
  content : Nat → Nat
  downscaled : Nat → Nat → Nat

/-- Embedding of `SceneManager._is_processing_required` (lines 656-659):
note the Python code takes `all(...)` over the dense detector list. -/
def isProcessingRequired (dense : List Detector) (frameNum : Nat) : Bool :=
  dense.all fun d => d.ipr frameNum

/-- Dense half of `SceneManager._process_frame` (lines 645-649): each dense
detector processes the frame; if it returned cuts and a callback is
registered, the callback is invoked; the cuts are appended. The callback log
records each invocation's `(frame_im, frame_num)` arguments in order. -/
def processDense (frameNum : Nat) (frameIm : Option Nat) (hasCb : Bool) :
    List Detector → List Nat → List (Option Nat × Nat) →
    List Nat × List (Option Nat × Nat)
  | [], cl, log => (cl, log)
  | d :: rest, cl, log =>
    let cuts := d.processFrame frameNum frameIm
    let log1 := if (!cuts.isEmpty) && hasCb then log ++ [(frameIm, frameNum)] else log
    processDense frameNum frameIm hasCb rest (cl ++ cuts) log1

/-- Sparse half of `SceneManager._process_frame` (lines 650-654). -/
def processSparse (frameNum : Nat) (frameIm : Option Nat) (hasCb : Bool) :
    List SparseDetector → List (Nat × Nat) → List (Option Nat × Nat) →
    List (Nat × Nat) × List (Option Nat × Nat)
  | [], el, log => (el, log)
  | d :: rest, el, log =>
    let events := d.processFrame frameNum frameIm
    let log1 := if (!events.isEmpty) && hasCb then log ++ [(frameIm, frameNum)] else log
    processSparse frameNum frameIm hasCb rest (el ++ events) log1

/-- Embedding of `SceneManager._process_frame` (lines 640-654). -/
def process_frame (dense : List Detector) (sparse : List SparseDetector)
    (frameNum : Nat) (frameIm : Option Nat) (hasCb : Bool)
    (cl : List Nat) (el : List (Nat × Nat)) (log : List (Option Nat × Nat)) :
    List Nat × List (Nat × Nat) × List (Option Nat × Nat) :=
  let dres := processDense frameNum frameIm hasCb dense cl log
  let sres := processSparse frameNum frameIm hasCb sparse el dres.2
  (dres.1, sres.1, sres.2)

/-- Mutable state of the `detect_scenes` main loop (lines 742-777):
the video position (`video.frame_number`), `last_frame`, the `decoded` flag,
the current `frame_im` (which persists across grab-only iterations), the
lists being accumulated, and instrumentation logs: `readLog` records each
main-loop read as `(position, decoded?)`, `grabLog` the frame-skip grabs,
`cbLog` the callback invocations. -/
structure LoopState where
  pos : Nat
  lastFrame : Nat
  decoded : Bool
  frameIm : Option Nat
  cuttingList : List Nat
  eventList : List (Nat × Nat)
  readLog : List (Nat × Bool)
  grabLog : List Nat
  cbLog : List (Option Nat × Nat)
deriving DecidableEq

/-- The `for _ in range(frame_skip): if not video.grab(): break` inner loop
(lines 769-774). -/
def grabSkip (video : Video) : Nat → LoopState → LoopState
  | 0, st => st
  | k + 1, st =>
    if st.pos < video.numFrames then
      grabSkip video k { st with pos := st.pos + 1, grabLog := st.grabLog ++ [st.pos] }
    else st

/-- The body of one successful iteration of the `detect_scenes` main loop
(lines 750-774): the decode-or-grab read decision, the downscale, the call
to `_process_frame`, and the `frame_skip` grabs. -/
def loopIter (dense : List Detector) (sparse : List SparseDetector) (video : Video)
    (downscaleFactor : Nat) (frameSkip : Nat) (hasCb : Bool) (st : LoopState) : LoopState :=
  let wantDecode :=
    isProcessingRequired dense st.pos || isProcessingRequired dense (st.pos + 1)
  let st1 :=
    if wantDecode then
      let raw := video.content st.pos
      let im := if downscaleFactor > 1 then video.downscaled raw downscaleFactor else raw
      { st with pos := st.pos + 1, frameIm := some im,
                readLog := st.readLog ++ [(st.pos, true)] }
    else
      { st with pos := st.pos + 1, readLog := st.readLog ++ [(st.pos, false)] }
  let lf := st1.pos - 1
  let pres := process_frame dense sparse lf st1.frameIm hasCb
    st1.cuttingList st1.eventList st1.cbLog
  let st2 := { st1 with lastFrame := lf, decoded := true,
                        cuttingList := pres.1, eventList := pres.2.1,
                        cbLog := pres.2.2 }
  if frameSkip > 0 then grabSkip video frameSkip st2 else st2

/-- One-to-one embedding of the `while True` loop of `detect_scenes`
(lines 746-777), with fuel for termination.  A read succeeds exactly when
the position is before the end of the video; a failed read breaks the loop.
`endTime` is the normalized end time as a frame index. -/
def detectLoop (dense : List Detector) (sparse : List SparseDetector) (video : Video)
    (downscaleFactor : Nat) (endTime : Option Nat) (frameSkip : Nat) (hasCb : Bool) :
    Nat → LoopState → LoopState
  | 0, st => st
  | fuel + 1, st =>
    if st.pos < video.numFrames then
      let st3 := loopIter dense sparse video downscaleFactor frameSkip hasCb st
      match endTime with
      | some e =>
        if st3.pos ≥ e then st3
        else detectLoop dense sparse video downscaleFactor endTime frameSkip hasCb fuel st3
      | none => detectLoop dense sparse video downscaleFactor endTime frameSkip hasCb fuel st3
    else st

/-- The `ValueError`s `detect_scenes` can raise in its validation prologue
(lines 702-710). -/
inductive DetectError where
  | frameSkipWithStats
  | durationAndEndTime
  | negativeDuration
  | negativeEndTime
deriving DecidableEq

/-- Outcome of a `detect_scenes` call: the manager state after the call (on
a raise, the state at the moment of the raise), the error if one was
raised, the logs of decoded/grab-only main-loop reads, frame-skip grabs and
callback invocations, and the return value. -/
structure RunResult where
  state : SMState
  error : Option DetectError
  readLog : List (Nat × Bool)
  grabLog : List Nat
  cbLog : List (Option Nat × Nat)
  retVal : Option Nat
deriving DecidableEq

/-- `duration is not None and duration < 0` (and the same for `end_time`). -/
def negOpt (x : Option Int) : Bool :=
  match x with
  | some d => decide (d < 0)
  | none => false

/-- Embedding of `SceneManager.detect_scenes` (lines 666-788).  `startPos`
is `video.frame_number` on entry; the video's base timecode is frame 0. -/
def detect_scenes (sm : SMState) (dense : List Detector) (sparse : List SparseDetector)
    (video : Video) (startPos : Nat)
    (duration : Option Int) (endTime : Option Int) (frameSkip : Nat) (hasCb : Bool) :
    RunResult :=
  if 0 < frameSkip ∧ sm.statsPresent = true then
    ⟨sm, some .frameSkipWithStats, [], [], [], none⟩
  else if duration.isSome ∧ endTime.isSome then
    ⟨sm, some .durationAndEndTime, [], [], [], none⟩
  else if negOpt duration then
    ⟨sm, some .negativeDuration, [], [], [], none⟩
  else if negOpt endTime then
    ⟨sm, some .negativeEndTime, [], [], [], none⟩
  else
    let sm1 := { sm with baseTimecode := some 0, startFrame := startPos }
    let endTime1 : Option Int :=
      match duration with
      | some d => some (d + (startPos : Int))
      | none => endTime
    let endTimeFrames : Option Nat := endTime1.map Int.toNat
    let downscaleFactor :=
      if sm1.autoDownscale then compute_downscale_factor video.frameWidth DEFAULT_MIN_WIDTH
      else sm1.downscale
    let st0 : LoopState :=
      ⟨startPos, 0, false, none, sm1.cuttingList, sm1.eventList, [], [], []⟩
    let stF := detectLoop dense sparse video downscaleFactor endTimeFrames frameSkip hasCb
      (video.numFrames + 1) st0
    let finalCl :=
      if stF.decoded then
        dense.foldl (fun cl d => cl ++ d.postProcess startPos stF.lastFrame) stF.cuttingList
      else stF.cuttingList
    let numF := stF.pos - startPos
    let sm2 := { sm1 with cuttingList := finalCl, eventList := stF.eventList,
                          numFrames := numF }
    ⟨sm2, none, stF.readLog, stF.grabLog, stF.cbLog, some numF⟩

/-- Embedding of `np.array_split(a, n)`: split `a` into the given chunk
sizes, each chunk a `take` of what remains. -/
def splitBySizes : List Nat → List Nat → List (List Nat)
  | [], _ => []
  | k :: ks, a => a.take k :: splitBySizes ks (a.drop k)

/-- Chunk sizes used by `np.array_split(a, n)`: `len % n` chunks of size
`len / n + 1` followed by the rest of size `len / n`. -/
def arraySplitSizes (len n : Nat) : List Nat :=
  List.replicate (len % n) (len / n + 1) ++ List.replicate (n - len % n) (len / n)

/-- `np.array_split(a, n)` on a list of frame numbers. -/
def arraySplit (a : List Nat) (n : Nat) : List (List Nat) :=
  splitBySizes (arraySplitSizes a.length n) a

/-- The padded per-scene frame range of `save_images` (scene_manager.py
lines 399-407): `range(start, end)` padded with copies of its last element
up to `num_images` entries when the scene is too short. -/
def paddedSceneRange (numImages s e : Nat) : List Nat :=
  let r := List.range' s (e - s)
  if 1 + r.getLastD 0 - r.headD 0 ≥ numImages then r
  else r ++ List.replicate (numImages - r.length) (r.getLastD 0)

/-- The per-bucket frame selection of `save_images` (lines 386-398): middle
frame for interior buckets (or when a single image is requested), the
margin-shifted first frame for bucket 0, the margin-shifted last frame for
the final bucket.  `max (last - margin) head` on `Nat` agrees with Python's
`max(a[-1] - frame_margin, a[0])` on ints because the head is nonnegative. -/
def bucketSample (numImages frameMargin : Nat) (j : Nat) (a : List Nat) : Nat :=
  if (0 < j ∧ j < numImages - 1) ∨ numImages = 1 then a.getD (a.length / 2) 0
  else if j = 0 then min (a.headD 0 + frameMargin) (a.getLastD 0)
  else max (a.getLastD 0 - frameMargin) (a.headD 0)

/-- The sample frame numbers `save_images` computes for one scene `[s, e)`
(lines 384-408): the scene's padded range is split into `numImages` buckets
and one frame is chosen per bucket. -/
def sceneSampleFrames (numImages frameMargin s e : Nat) : List Nat :=
  (arraySplit (paddedSceneRange numImages s e) numImages).enum.map
    fun ja => bucketSample numImages frameMargin ja.1 ja.2

/-- Embedding of the argument handling of `save_images` (lines 356-359) and
its frame-selection result: an empty scene list returns the empty mapping
before any validation; otherwise `num_images <= 0 or frame_margin < 0`
raises `ValueError`; otherwise the per-scene sample frames are produced. -/
def save_images (sceneList : List (Nat × Nat)) (numImages : Int) (frameMargin : Int) :
    Except Unit (List (List Nat)) :=
  if sceneList.isEmpty then .ok []
  else if numImages ≤ 0 ∨ frameMargin < 0 then .error ()
  else .ok (sceneList.map fun se => sceneSampleFrames numImages.toNat frameMargin.toNat se.1 se.2)

/-- Outcome of the `VideoManager(video_files=..., framerate=...)`
construction attempted inside `CliContext.input_videos`: on success it
yields a manager (identified abstractly) and its base timecode. -/
inductive VideoManagerOutcome where
  | success (managerId : Nat) (baseFrame : Nat)
  | openFailure
  | framerateUnavailable
  | parameterMismatch
deriving DecidableEq

/-- The fields of `CliContext` that `input_videos` touches. -/
structure CliState where
  videoManager : Option Nat
  baseTimecode : Option Nat
deriving DecidableEq

/-- Result of `input_videos`: a normal return carrying the boolean return
value, or a raised `click.BadParameter`. -/
inductive CliResult where
  | ret (st : CliState) (value : Bool)
  | badParameter (st : CliState)
deriving DecidableEq

/-- Embedding of `CliContext.input_videos` (cli_context.py lines 155-199).
`base_timecode` is reset to `None` first; if construction raises, the
handler re-raises `click.BadParameter` (so `video_manager` keeps its prior
value and the trailing code does not run); on success both fields are set,
`video_manager_initialized` is true so the reset branch is skipped, and the
function returns `self.video_manager is None`. -/
def input_videos (st : CliState) (outcome : VideoManagerOutcome) : CliResult :=
  let st0 : CliState := { st with baseTimecode := none }
  match outcome with
  | .success vm base =>
    let st1 : CliState := { st0 with videoManager := some vm }
    let st2 : CliState := { st1 with baseTimecode := some base }
    .ret st2 st2.videoManager.isNone
  | _ => .badParameter st0

/-! ### Lemmas about scene composition (`get_scenes_from_cuts`) -/

theorem scenesAux_ne_nil (l e : Nat) (cl : List Nat) : scenesAux l cl e ≠ [] := by
  cases cl <;> simp [scenesAux]

theorem scenesAux_headD_fst (l e : Nat) (cl : List Nat) (d : Nat × Nat) :
    ((scenesAux l cl e).headD d).1 = l := by
  cases cl <;> simp [scenesAux]

theorem scenesAux_head_fst (l e : Nat) (cl : List Nat) :
    ∀ q ∈ (scenesAux l cl e).head?, q.1 = l := by
  cases cl <;> simp [scenesAux]

theorem scenesAux_getLastD_snd (l e : Nat) (cl : List Nat) (d : Nat × Nat) :
    ((scenesAux l cl e).getLastD d).2 = e := by
  induction cl generalizing l d with
  | nil => simp [scenesAux]
  | cons c rest ih =>
    rw [scenesAux, List.getLastD_cons]
    exact ih c (l, c)

theorem scenesAux_chain (l e : Nat) (cl : List Nat) :
    List.Chain' (fun p q : Nat × Nat => p.2 = q.1) (scenesAux l cl e) := by
  induction cl generalizing l with
  | nil => simp [scenesAux]
  | cons c rest ih =>
    rw [scenesAux, List.chain'_cons']
    exact ⟨fun q hq => (scenesAux_head_fst c e rest q hq).symm, ih c⟩

theorem scenesAux_mem (l e : Nat) (cl : List Nat) (q : Nat × Nat) :
    q ∈ scenesAux l cl e → (q.1 = l ∨ q.1 ∈ cl) ∧ (q.2 ∈ cl ∨ q.2 = e) := by
  induction cl generalizing l with
  | nil =>
    intro hq
    simp only [scenesAux, List.mem_singleton] at hq
    subst hq
    exact ⟨Or.inl rfl, Or.inr rfl⟩
  | cons c rest ih =>
    intro hq
    rw [scenesAux, List.mem_cons] at hq
    rcases hq with hq | hq
    · subst hq
      exact ⟨Or.inl rfl, Or.inl (List.mem_cons_self c rest)⟩
    · rcases ih c hq with ⟨h1, h2⟩
      refine ⟨?_, ?_⟩
      · rcases h1 with h1 | h1
        · exact Or.inr (h1 ▸ List.mem_cons_self c rest)
        · exact Or.inr (List.mem_cons_of_mem c h1)
      · rcases h2 with h2 | h2
        · exact Or.inl (List.mem_cons_of_mem c h2)
        · exact Or.inr h2

theorem scenesAux_pairwise (l e : Nat) (cl : List Nat)
    (hb : ∀ c ∈ cl, l ≤ c ∧ c ≤ e) (hp : cl.Pairwise (· < ·)) (hle : l ≤ e) :
    (scenesAux l cl e).Pairwise sceneLe := by
  induction cl generalizing l with
  | nil => simp [scenesAux]
  | cons c rest ih =>
    rw [scenesAux, List.pairwise_cons]
    have hlc := hb c (List.mem_cons_self c rest)
    have hcr : ∀ x ∈ rest, c < x := (List.pairwise_cons.mp hp).1
    have hrest : ∀ x ∈ rest, c ≤ x ∧ x ≤ e := fun x hx =>
      ⟨Nat.le_of_lt (hcr x hx), (hb x (List.mem_cons_of_mem c hx)).2⟩
    constructor
    · intro q hq
      rcases scenesAux_mem c e rest q hq with ⟨h1, h2⟩
      rcases Nat.lt_or_ge l c with hl | hl
      · rcases h1 with h1 | h1
        · exact Or.inl (h1 ▸ hl)
        · exact Or.inl (Nat.lt_of_lt_of_le hl (Nat.le_of_lt (hcr q.1 h1)))
      · have hlceq : l = c := Nat.le_antisymm hlc.1 hl
        rcases h1 with h1 | h1
        · refine Or.inr ⟨by rw [h1, hlceq], ?_⟩
          rcases h2 with h2 | h2
          · exact Nat.le_of_lt (hcr q.2 h2)
          · exact h2 ▸ hlc.2
        · exact Or.inl (hlceq ▸ hcr q.1 h1)
    · exact ih c hrest (List.Pairwise.of_cons hp) hlc.2

theorem scenesAux_nonempty_mem (l e : Nat) (cl : List Nat)
    (hb : ∀ c ∈ cl, l < c ∧ c < e) (hp : cl.Pairwise (· < ·)) (hle : l < e) :
    ∀ p ∈ scenesAux l cl e, p.1 < p.2 := by
  induction cl generalizing l with
  | nil =>
    intro p hp1
    simp only [scenesAux, List.mem_singleton] at hp1
    subst hp1
    exact hle
  | cons c rest ih =>
    intro p hmem
    rw [scenesAux, List.mem_cons] at hmem
    have hlc := hb c (List.mem_cons_self c rest)
    rcases hmem with hmem | hmem
    · subst hmem
      exact hlc.1
    · have hcr : ∀ x ∈ rest, c < x := (List.pairwise_cons.mp hp).1
      have hrest : ∀ x ∈ rest, c < x ∧ x < e := fun x hx =>
        ⟨hcr x hx, (hb x (List.mem_cons_of_mem c hx)).2⟩
      exact ih c hrest (List.Pairwise.of_cons hp) hlc.2 p hmem

/-! ### Lemmas about the deduplicated sorted cutting list -/

theorem get_cutting_list_mem (cl : List Nat) (c : Nat) :
    c ∈ get_cutting_list cl ↔ c ∈ cl := by
  unfold get_cutting_list
  rw [(List.perm_insertionSort _ _).mem_iff, List.mem_dedup]

theorem get_cutting_list_pairwise (cl : List Nat) :
    (get_cutting_list cl).Pairwise (· < ·) := by
  have hs : (get_cutting_list cl).Pairwise (· ≤ ·) :=
    List.sorted_insertionSort (· ≤ ·) cl.dedup
  have hn : (get_cutting_list cl).Pairwise (· ≠ ·) :=
    ((List.perm_insertionSort _ _).nodup_iff).mpr (List.nodup_dedup cl)
  exact (hs.and hn).imp fun h => Nat.lt_of_le_of_ne h.1 h.2

/-- Closed form of `get_scene_list` after a dense-only run whose cuts all
lie within the processed frame range: the sort is the identity and the
result is exactly the scenes derived from the sorted cut list. -/
theorem get_scene_list_dense_eq (sm : SMState)
    (h0 : sm.baseTimecode = some 0) (hev : sm.eventList = [])
    (hc : ∀ c ∈ sm.cuttingList, sm.startFrame ≤ c ∧ c < sm.startFrame + sm.numFrames) :
    get_scene_list sm none =
      get_scenes_from_cuts (get_cutting_list sm.cuttingList) 0 sm.numFrames sm.startFrame := by
  have hres : resolveBase sm none = some 0 := by
    simp [resolveBase, h0]
  have hevl : get_event_list sm (some 0) = [] := by
    simp [get_event_list, resolveBase, hev]
  have hcl : get_cut_list sm (some 0) = get_cutting_list sm.cuttingList := by
    simp [get_cut_list, resolveBase]
  simp only [get_scene_list, hres, hevl, hcl, List.nil_append]
  have hcuts : ∀ c ∈ get_cutting_list sm.cuttingList,
      sm.startFrame ≤ c ∧ c ≤ sm.startFrame + sm.numFrames := by
    intro c hcmem
    have := hc c ((get_cutting_list_mem sm.cuttingList c).mp hcmem)
    exact ⟨this.1, Nat.le_of_lt this.2⟩
  apply List.Sorted.insertionSort_eq
  unfold get_scenes_from_cuts
  by_cases he : (get_cutting_list sm.cuttingList).isEmpty
  · rw [if_pos he]
    exact List.pairwise_singleton _ _
  · rw [if_neg he]
    have := scenesAux_pairwise (0 + sm.startFrame) (0 + sm.startFrame + sm.numFrames)
      (get_cutting_list sm.cuttingList) ?_ (get_cutting_list_pairwise sm.cuttingList) ?_
    · exact this
    · intro c hcmem
      have h := hcuts c hcmem
      omega
    · omega

/-! ### Lemmas about the main-loop read decision -/

theorem grabSkip_readLog (video : Video) (k : Nat) (st : LoopState) :
    (grabSkip video k st).readLog = st.readLog := by
  induction k generalizing st with
  | zero => rfl
  | succ k ih =>
    rw [grabSkip]
    by_cases h : st.pos < video.numFrames
    · rw [if_pos h]
      exact ih _
    · rw [if_neg h]

theorem loopIter_readLog (dense : List Detector) (sparse : List SparseDetector)
    (video : Video) (dsf frameSkip : Nat) (hasCb : Bool) (st : LoopState) :
    (loopIter dense sparse video dsf frameSkip hasCb st).readLog =
      st.readLog ++
        [(st.pos, isProcessingRequired dense st.pos || isProcessingRequired dense (st.pos + 1))] := by
  unfold loopIter
  cases hw : isProcessingRequired dense st.pos || isProcessingRequired dense (st.pos + 1) <;>
    by_cases hk : frameSkip > 0 <;>
    simp [hw, hk, grabSkip_readLog]

theorem detectLoop_readLog_inv (dense : List Detector) (sparse : List SparseDetector)
    (video : Video) (dsf : Nat) (endTime : Option Nat) (frameSkip : Nat) (hasCb : Bool)
    (fuel : Nat) (st : LoopState)
    (h : ∀ pr ∈ st.readLog,
      pr.2 = (isProcessingRequired dense pr.1 || isProcessingRequired dense (pr.1 + 1))) :
    ∀ pr ∈ (detectLoop dense sparse video dsf endTime frameSkip hasCb fuel st).readLog,
      pr.2 = (isProcessingRequired dense pr.1 || isProcessingRequired dense (pr.1 + 1)) := by
  induction fuel generalizing st with
  | zero => exact h
  | succ fuel ih =>
    rw [detectLoop]
    by_cases hlt : st.pos < video.numFrames
    · rw [if_pos hlt]
      have h3 : ∀ pr ∈ (loopIter dense sparse video dsf frameSkip hasCb st).readLog,
          pr.2 = (isProcessingRequired dense pr.1 || isProcessingRequired dense (pr.1 + 1)) := by
        rw [loopIter_readLog]
        intro pr hpr
        rcases List.mem_append.mp hpr with hpr | hpr
        · exact h pr hpr
        · rw [List.mem_singleton] at hpr
          rw [hpr]
      cases endTime with
      | some e =>
        by_cases hle : (loopIter dense sparse video dsf frameSkip hasCb st).pos ≥ e
        · simpa [hle] using h3
        · simpa [hle] using ih _ h3
      | none => exact ih _ h3
    · rw [if_neg hlt]
      exact h

/-! ### Lemmas about `_process_frame` callback invocations -/

theorem processDense_log (n : Nat) (im : Option Nat) (ds : List Detector) :
    ∀ (cl : List Nat) (log : List (Option Nat × Nat)),
      (processDense n im true ds cl log).2 =
        log ++ List.replicate (ds.countP fun d => !(d.processFrame n im).isEmpty) (im, n) := by
  induction ds with
  | nil => intro cl log; simp [processDense]
  | cons d rest ih =>
    intro cl log
    rw [processDense, List.countP_cons]
    cases hfire : (d.processFrame n im).isEmpty
    · simp [hfire, ih, List.replicate_succ, List.append_assoc]
    · simp [hfire, ih]

theorem processSparse_log (n : Nat) (im : Option Nat) (ds : List SparseDetector) :
    ∀ (el : List (Nat × Nat)) (log : List (Option Nat × Nat)),
      (processSparse n im true ds el log).2 =
        log ++ List.replicate (ds.countP fun d => !(d.processFrame n im).isEmpty) (im, n) := by
  induction ds with
  | nil => intro el log; simp [processSparse]
  | cons d rest ih =>
    intro el log
    rw [processSparse, List.countP_cons]
    cases hfire : (d.processFrame n im).isEmpty
    · simp [hfire, ih, List.replicate_succ, List.append_assoc]
    · simp [hfire, ih]

/-! ### Arithmetic facts for the downscale factor -/

theorem compute_downscale_factor_eq_max (w t : Nat) (hw : 1 ≤ w) (ht : 1 ≤ t) :
    compute_downscale_factor w t = max 1 (w / t) := by
  unfold compute_downscale_factor
  by_cases h : w < t
  · rw [if_pos h]
    have : w / t = 0 := Nat.div_eq_of_lt h
    omega
  · rw [if_neg h]
    have h1 : 1 ≤ w / t := (Nat.le_div_iff_mul_le ht).mpr (by omega)
    omega

theorem effective_width_bounds (w t : Nat) (ht : 1 ≤ t) (hwt : t ≤ w) :
    t ≤ w / compute_downscale_factor w t ∧ w / compute_downscale_factor w t < 2 * t := by
  have hfac : compute_downscale_factor w t = w / t := by
    unfold compute_downscale_factor
    rw [if_neg (by omega)]
  have hq1 : 1 ≤ w / t := (Nat.le_div_iff_mul_le ht).mpr (by omega)
  have hmul : w / t * t ≤ w := Nat.div_mul_le_self w t
  have hmod := Nat.mod_add_div w t
  have hmlt : w % t < t := Nat.mod_lt w ht
  have e1 : t * (w / t) = w / t * t := by ring
  constructor
  · rw [hfac]
    refine (Nat.le_div_iff_mul_le hq1).mpr ?_
    omega
  · rw [hfac]
    refine (Nat.div_lt_iff_lt_mul hq1).mpr ?_
    have e2 : 2 * t * (w / t) = w / t * t + w / t * t := by ring
    have e3 : t ≤ w / t * t := by
      calc t = 1 * t := by ring
      _ ≤ w / t * t := Nat.mul_le_mul_right t hq1
    omega

/-! ### Lemmas for the save_images sample-frame computation -/

theorem getD_mem (a : List Nat) (i d : Nat) (h : i < a.length) : a.getD i d ∈ a := by
  rw [List.getD_eq_getElem?_getD, List.getElem?_eq_getElem h]
  exact List.getElem_mem h

theorem headD_mem (a : List Nat) (d : Nat) (h : a ≠ []) : a.headD d ∈ a := by
  cases a with
  | nil => exact absurd rfl h
  | cons x t => exact List.mem_cons_self x t

theorem getLastD_mem (a : List Nat) (d : Nat) (h : a ≠ []) : a.getLastD d ∈ a := by
  cases a with
  | nil => exact absurd rfl h
  | cons x t =>
    rw [List.getLastD_cons]
    exact List.getLastD_mem_cons t x

theorem pairwise_headD_le (a : List Nat) (d : Nat) (hp : a.Pairwise (· ≤ ·)) :
    ∀ x ∈ a, a.headD d ≤ x := by
  cases a with
  | nil => intro x hx; simp at hx
  | cons h t =>
    intro x hx
    rcases List.mem_cons.mp hx with hx | hx
    · subst hx; exact Nat.le_refl _
    · exact (List.pairwise_cons.mp hp).1 x hx

theorem pairwise_le_getLastD (a : List Nat) :
    ∀ (d : Nat), a.Pairwise (· ≤ ·) → ∀ x ∈ a, x ≤ a.getLastD d := by
  induction a with
  | nil => intro d _ x hx; simp at hx
  | cons h t ih =>
    intro d hp x hx
    rw [List.getLastD_cons]
    have hht : ∀ y ∈ t, h ≤ y := (List.pairwise_cons.mp hp).1
    rcases List.mem_cons.mp hx with hx | hx
    · subst hx
      rcases List.mem_cons.mp (List.getLastD_mem_cons t x) with hm | hm
      · exact Nat.le_of_eq hm.symm
      · exact hht _ hm
    · exact ih h (List.Pairwise.of_cons hp) x hx

theorem bucketSample_bounds (n m j : Nat) (a : List Nat) (hne : a ≠ [])
    (hp : a.Pairwise (· ≤ ·)) :
    a.headD 0 ≤ bucketSample n m j a ∧ bucketSample n m j a ≤ a.getLastD 0 := by
  have hhl : a.headD 0 ≤ a.getLastD 0 :=
    pairwise_le_getLastD a 0 hp _ (headD_mem a 0 hne)
  unfold bucketSample
  by_cases h1 : (0 < j ∧ j < n - 1) ∨ n = 1
  · rw [if_pos h1]
    have hlen : a.length / 2 < a.length :=
      Nat.div_lt_self (List.length_pos.mpr hne) (by omega)
    have hm := getD_mem a (a.length / 2) 0 hlen
    exact ⟨pairwise_headD_le a 0 hp _ hm, pairwise_le_getLastD a 0 hp _ hm⟩
  · rw [if_neg h1]
    by_cases h2 : j = 0
    · rw [if_pos h2]
      exact ⟨le_min (Nat.le_add_right _ _) hhl, min_le_right _ _⟩
    · rw [if_neg h2]
      exact ⟨le_max_right _ _, max_le (Nat.sub_le _ _) hhl⟩

theorem splitBySizes_length (ks : List Nat) :
    ∀ (a : List Nat), (splitBySizes ks a).length = ks.length := by
  induction ks with
  | nil => intro a; rfl
  | cons k ks ih => intro a; simp [splitBySizes, ih]

theorem splitBySizes_subset (ks : List Nat) :
    ∀ (a : List Nat), ∀ b ∈ splitBySizes ks a, ∀ x ∈ b, x ∈ a := by
  induction ks with
  | nil => intro a b hb; simp [splitBySizes] at hb
  | cons k ks ih =>
    intro a b hb x hx
    rcases List.mem_cons.mp hb with hb | hb
    · subst hb; exact List.take_subset k a hx
    · exact List.drop_subset k a (ih (a.drop k) b hb x hx)

theorem splitBySizes_ne_nil (ks : List Nat) :
    ∀ (a : List Nat), (∀ k ∈ ks, 0 < k) → ks.sum ≤ a.length →
      ∀ b ∈ splitBySizes ks a, b ≠ [] := by
  induction ks with
  | nil => intro a _ _ b hb; simp [splitBySizes] at hb
  | cons k ks ih =>
    intro a hpos hsum b hb
    have hk : 0 < k := hpos k (List.mem_cons_self _ _)
    have hsum1 : k + ks.sum ≤ a.length := by simpa [List.sum_cons] using hsum
    rcases List.mem_cons.mp hb with hb | hb
    · subst hb
      have hlt : 0 < (a.take k).length := by
        rw [List.length_take]; omega
      exact List.ne_nil_of_length_pos hlt
    · refine ih (a.drop k) (fun x hx => hpos x (List.mem_cons_of_mem _ hx)) ?_ b hb
      rw [List.length_drop]; omega

theorem splitBySizes_sorted (ks : List Nat) :
    ∀ (a : List Nat), a.Pairwise (· ≤ ·) → ∀ b ∈ splitBySizes ks a, b.Pairwise (· ≤ ·) := by
  induction ks with
  | nil => intro a _ b hb; simp [splitBySizes] at hb
  | cons k ks ih =>
    intro a hp b hb
    rcases List.mem_cons.mp hb with hb | hb
    · subst hb; exact List.Pairwise.sublist (List.take_sublist k a) hp
    · exact ih (a.drop k) (List.Pairwise.sublist (List.drop_sublist k a) hp) b hb

theorem splitBySizes_chain (ks : List Nat) :
    ∀ (a : List Nat), a.Pairwise (· ≤ ·) →
      (splitBySizes ks a).Pairwise (fun b c => ∀ x ∈ b, ∀ y ∈ c, x ≤ y) := by
  induction ks with
  | nil => intro a _; simp [splitBySizes]
  | cons k ks ih =>
    intro a hp
    rw [splitBySizes, List.pairwise_cons]
    constructor
    · intro c hc x hx y hy
      have hyd : y ∈ a.drop k := splitBySizes_subset ks (a.drop k) c hc y hy
      have hsplit : (a.take k ++ a.drop k).Pairwise (· ≤ ·) := by
        rw [List.take_append_drop]; exact hp
      exact (List.pairwise_append.mp hsplit).2.2 x hx y hyd
    · exact ih (a.drop k) (List.Pairwise.sublist (List.drop_sublist k a) hp)

theorem arraySplitSizes_length (len n : Nat) (hn : 0 < n) :
    (arraySplitSizes len n).length = n := by
  unfold arraySplitSizes
  have := Nat.mod_lt len hn
  rw [List.length_append, List.length_replicate, List.length_replicate]
  omega

theorem arraySplitSizes_pos (len n : Nat) (hlen : n ≤ len) (hn : 0 < n) :
    ∀ k ∈ arraySplitSizes len n, 0 < k := by
  intro k hk
  unfold arraySplitSizes at hk
  rcases List.mem_append.mp hk with hk | hk
  · rcases List.mem_replicate.mp hk with ⟨_, rfl⟩
    exact Nat.succ_pos _
  · rcases List.mem_replicate.mp hk with ⟨_, rfl⟩
    exact Nat.div_pos hlen hn

theorem arraySplitSizes_sum (len n : Nat) (hn : 0 < n) :
    (arraySplitSizes len n).sum = len := by
  unfold arraySplitSizes
  rw [List.sum_append, List.sum_replicate, List.sum_replicate, smul_eq_mul, smul_eq_mul]
  have hmod := Nat.mod_add_div len n
  have hlt : len % n < n := Nat.mod_lt len hn
  have e1 : len % n * (len / n + 1) = len % n * (len / n) + len % n := by ring
  have e2 : (n - len % n) * (len / n) = n * (len / n) - len % n * (len / n) :=
    Nat.sub_mul _ _ _
  have e3 : len % n * (len / n) ≤ n * (len / n) :=
    Nat.mul_le_mul_right _ (Nat.le_of_lt hlt)
  omega

theorem range'_headD (s k d : Nat) (hk : 0 < k) : (List.range' s k).headD d = s := by
  cases k with
  | zero => omega
  | succ k => rw [List.range'_succ]; rfl

theorem range'_getLastD (k : Nat) : ∀ (s d : Nat), 0 < k →
    (List.range' s k).getLastD d = s + k - 1 := by
  induction k with
  | zero => intro s d h; omega
  | succ k ih =>
    intro s d h
    rw [List.range'_succ, List.getLastD_cons]
    rcases Nat.eq_zero_or_pos k with hk | hk
    · subst hk
      show (List.range' (s + 1) 0).getLastD s = s + 1 - 1
      simp [List.range']
    · rw [ih (s + 1) s hk]; omega

theorem paddedSceneRange_facts (n s e : Nat) (hse : s < e) (hn : 1 ≤ n) :
    (paddedSceneRange n s e).Pairwise (· ≤ ·) ∧
    (∀ x ∈ paddedSceneRange n s e, s ≤ x ∧ x < e) ∧
    n ≤ (paddedSceneRange n s e).length := by
  unfold paddedSceneRange
  have hlen : 0 < e - s := by omega
  have hhead : (List.range' s (e - s)).headD 0 = s := range'_headD s (e - s) 0 hlen
  have hlast : (List.range' s (e - s)).getLastD 0 = s + (e - s) - 1 :=
    range'_getLastD (e - s) s 0 hlen
  have hsorted : (List.range' s (e - s)).Pairwise (· ≤ ·) :=
    (List.pairwise_lt_range' s (e - s)).imp Nat.le_of_lt
  have hmem : ∀ x ∈ List.range' s (e - s), s ≤ x ∧ x < e := by
    intro x hx
    have := List.mem_range'_1.mp hx
    omega
  by_cases hcond :
      1 + (List.range' s (e - s)).getLastD 0 - (List.range' s (e - s)).headD 0 ≥ n
  · rw [if_pos hcond]
    refine ⟨hsorted, hmem, ?_⟩
    rw [List.length_range']
    omega
  · rw [if_neg hcond]
    refine ⟨?_, ?_, ?_⟩
    · rw [List.pairwise_append]
      refine ⟨hsorted, ?_, ?_⟩
      · rw [List.pairwise_replicate]
        exact Or.inr (Nat.le_refl _)
      · intro x hx y hy
        rcases List.mem_replicate.mp hy with ⟨_, rfl⟩
        exact pairwise_le_getLastD _ 0 hsorted x hx
    · intro x hx
      rcases List.mem_append.mp hx with hx | hx
      · exact hmem x hx
      · rcases List.mem_replicate.mp hx with ⟨_, rfl⟩
        rw [hlast]; omega
    · rw [List.length_append, List.length_replicate, List.length_range']
      omega

theorem enumFrom_mem_snd (l : List (List Nat)) :
    ∀ (k : Nat) (p : Nat × List Nat), p ∈ List.enumFrom k l → p.2 ∈ l := by
  induction l with
  | nil => intro k p hp; simp [List.enumFrom] at hp
  | cons b rest ih =>
    intro k p hp
    rw [List.enumFrom_cons, List.mem_cons] at hp
    rcases hp with hp | hp
    · subst hp; exact List.mem_cons_self _ _
    · exact List.mem_cons_of_mem _ (ih (k + 1) p hp)

theorem sample_map_pairwise (n m : Nat) :
    ∀ (P : List (List Nat)) (k : Nat),
      (∀ b ∈ P, b ≠ []) → (∀ b ∈ P, b.Pairwise (· ≤ ·)) →
      P.Pairwise (fun b c => ∀ x ∈ b, ∀ y ∈ c, x ≤ y) →
      ((List.enumFrom k P).map fun ja => bucketSample n m ja.1 ja.2).Pairwise (· ≤ ·) := by
  intro P
  induction P with
  | nil => intro k _ _ _; simp [List.enumFrom]
  | cons b rest ih =>
    intro k hne hsort hchain
    rw [List.enumFrom_cons, List.map_cons, List.pairwise_cons]
    have hbm : b ∈ b :: rest := List.mem_cons_self _ _
    constructor
    · intro y hy
      rcases List.mem_map.mp hy with ⟨jc, hjc, rfl⟩
      have hcmem : jc.2 ∈ rest := enumFrom_mem_snd rest (k + 1) jc hjc
      have hb := bucketSample_bounds n m k b (hne b hbm) (hsort b hbm)
      have hc := bucketSample_bounds n m jc.1 jc.2
        (hne jc.2 (List.mem_cons_of_mem _ hcmem)) (hsort jc.2 (List.mem_cons_of_mem _ hcmem))
      have hcross : ∀ x ∈ b, ∀ z ∈ jc.2, x ≤ z :=
        (List.pairwise_cons.mp hchain).1 jc.2 hcmem
      have h1 : b.getLastD 0 ∈ b := getLastD_mem b 0 (hne b hbm)
      have h2 : jc.2.headD 0 ∈ jc.2 :=
        headD_mem jc.2 0 (hne jc.2 (List.mem_cons_of_mem _ hcmem))
      calc bucketSample n m k b ≤ b.getLastD 0 := hb.2
        _ ≤ jc.2.headD 0 := hcross _ h1 _ h2
        _ ≤ bucketSample n m jc.1 jc.2 := hc.1
    · exact ih (k + 1) (fun c hc => hne c (List.mem_cons_of_mem _ hc))
        (fun c hc => hsort c (List.mem_cons_of_mem _ hc)) (List.Pairwise.of_cons hchain)

theorem sample_map_bounds (n m lo hi : Nat) :
    ∀ (P : List (List Nat)) (k : Nat),
      (∀ b ∈ P, b ≠ []) → (∀ b ∈ P, b.Pairwise (· ≤ ·)) →
      (∀ b ∈ P, ∀ x ∈ b, lo ≤ x ∧ x < hi) →
      ∀ y ∈ (List.enumFrom k P).map fun ja => bucketSample n m ja.1 ja.2,
        lo ≤ y ∧ y < hi := by
  intro P
  induction P with
  | nil => intro k _ _ _ y hy; simp [List.enumFrom] at hy
  | cons b rest ih =>
    intro k hne hsort hbd y hy
    rw [List.enumFrom_cons, List.map_cons, List.mem_cons] at hy
    have hbm : b ∈ b :: rest := List.mem_cons_self _ _
    rcases hy with hy | hy
    · subst hy
      have hb := bucketSample_bounds n m k b (hne b hbm) (hsort b hbm)
      have h1 : b.headD 0 ∈ b := headD_mem b 0 (hne b hbm)
      have h2 : b.getLastD 0 ∈ b := getLastD_mem b 0 (hne b hbm)
      exact ⟨Nat.le_trans (hbd b hbm _ h1).1 hb.1,
        Nat.lt_of_le_of_lt hb.2 (hbd b hbm _ h2).2⟩
    · exact ih (k + 1) (fun c hc => hne c (List.mem_cons_of_mem _ hc))
        (fun c hc => hsort c (List.mem_cons_of_mem _ hc))
        (fun c hc => hbd c (List.mem_cons_of_mem _ hc)) y hy

/-! ### Claim theorems -/

/-- C1: after a dense-only run that processed `numFrames ≥ 1` frames from
`startFrame` (so the recorded base timecode is frame 0, the event list is
empty, and every emitted cut lies in the processed range), the scene list
returned by `get_scene_list` starts at `startFrame`, ends at
`startFrame + numFrames`, and each scene's end equals the next scene's
start. -/
theorem c1_scene_partition (sm : SMState)
    (hbase : sm.baseTimecode = some 0) (hev : sm.eventList = [])
    (hN : 1 ≤ sm.numFrames)
    (hc : ∀ c ∈ sm.cuttingList, sm.startFrame ≤ c ∧ c < sm.startFrame + sm.numFrames) :
    get_scene_list sm none ≠ [] ∧
    ((get_scene_list sm none).headD (0, 0)).1 = sm.startFrame ∧
    ((get_scene_list sm none).getLastD (0, 0)).2 = sm.startFrame + sm.numFrames ∧
    List.Chain' (fun p q : Nat × Nat => p.2 = q.1) (get_scene_list sm none) := by
  rw [get_scene_list_dense_eq sm hbase hev hc]
  unfold get_scenes_from_cuts
  by_cases he : (get_cutting_list sm.cuttingList).isEmpty
  · rw [if_pos he]
    exact ⟨by simp, by simp, by simp, List.chain'_singleton _⟩
  · rw [if_neg he]
    refine ⟨scenesAux_ne_nil _ _ _, ?_, ?_, scenesAux_chain _ _ _⟩
    · rw [scenesAux_headD_fst]
      omega
    · rw [scenesAux_getLastD_snd]
      omega

/-- Witness for C1 at the spec's first concrete scenario: 300 frames from
frame 0 with a single cut at 120. -/
theorem c1_scene_partition_witness :
    get_scene_list ⟨[120], [], 300, 0, some 0, false, 1, false⟩ none ≠ [] ∧
    ((get_scene_list ⟨[120], [], 300, 0, some 0, false, 1, false⟩ none).headD (0, 0)).1 = 0 ∧
    ((get_scene_list ⟨[120], [], 300, 0, some 0, false, 1, false⟩ none).getLastD (0, 0)).2
      = 0 + 300 ∧
    List.Chain' (fun p q : Nat × Nat => p.2 = q.1)
      (get_scene_list ⟨[120], [], 300, 0, some 0, false, 1, false⟩ none) :=
  c1_scene_partition ⟨[120], [], 300, 0, some 0, false, 1, false⟩ rfl rfl (by decide)
    (by decide)

/-- C2 as stated is false on the code: a detector may emit the run's first
frame as a cut (nothing in `_process_frame` or `_get_cutting_list` filters
it), and then the scene list contains the empty scene `(start, start)`.
Concretely: one processed frame starting at 0 with emitted cut list `[0]`
yields scene list `[(0, 0), (0, 1)]`. -/
theorem c2_nonempty_scenes_cex :
    ¬ (∀ p ∈ get_scene_list ⟨[0], [], 1, 0, some 0, false, 1, false⟩ none, p.1 < p.2) := by
  decide

/-- C2 amended: if every emitted cut lies strictly between `startFrame` and
`startFrame + numFrames` (which excludes only a cut at the very first
processed frame), every scene in the returned list is non-empty. -/
theorem c2_nonempty_scenes_amended (sm : SMState)
    (hbase : sm.baseTimecode = some 0) (hev : sm.eventList = [])
    (hN : 1 ≤ sm.numFrames)
    (hc : ∀ c ∈ sm.cuttingList, sm.startFrame < c ∧ c < sm.startFrame + sm.numFrames) :
    ∀ p ∈ get_scene_list sm none, p.1 < p.2 := by
  rw [get_scene_list_dense_eq sm hbase hev
    (fun c hc1 => ⟨Nat.le_of_lt (hc c hc1).1, (hc c hc1).2⟩)]
  unfold get_scenes_from_cuts
  by_cases he : (get_cutting_list sm.cuttingList).isEmpty
  · rw [if_pos he]
    intro p hp
    rw [List.mem_singleton] at hp
    subst hp
    show 0 + sm.startFrame < 0 + sm.startFrame + sm.numFrames
    omega
  · rw [if_neg he]
    refine scenesAux_nonempty_mem _ _ _ ?_ (get_cutting_list_pairwise _) (by omega)
    intro c hcm
    have := hc c ((get_cutting_list_mem _ _).mp hcm)
    omega

/-- Witness for the amended C2: 300 frames from frame 0, cuts 120 and 200;
the first scene (0, 120) of the resulting list is non-empty. -/
theorem c2_nonempty_scenes_amended_witness :
    (0, 120) ∈ get_scene_list ⟨[200, 120], [], 300, 0, some 0, false, 1, false⟩ none ∧
    (0 : Nat) < 120 :=
  ⟨by decide,
    c2_nonempty_scenes_amended ⟨[200, 120], [], 300, 0, some 0, false, 1, false⟩ rfl rfl
      (by decide) (by decide) (0, 120) (by decide)⟩

/-- C3 as stated is false on the code: `_is_processing_required` takes
`all(...)` over the dense detector list, not `any(...)`.  With no dense
detectors `all([])` is true, so the loop pulls a decoded frame even though
no detector requires processing (the claim's any-quantified condition is
false). -/
theorem c3_decode_condition_cex :
    (detect_scenes ⟨[], [], 0, 0, none, false, 1, false⟩ [] []
        ⟨1, 640, fun _ => 7, fun x _ => x⟩ 0 none none 0 false).readLog = [(0, true)] ∧
    (([] : List Detector).any fun d => d.ipr 0 || d.ipr (0 + 1)) = false :=
  ⟨by decide, rfl⟩

/-- C3 amended: in every iteration of the main loop, a decoded frame is
pulled if and only if EVERY dense detector's `is_processing_required`
returns true at the current frame number, or every one returns true at the
next frame number; otherwise a grab-only advance is requested. -/
theorem c3_decode_condition_amended (sm : SMState) (dense : List Detector)
    (sparse : List SparseDetector) (video : Video) (startPos : Nat)
    (duration endTime : Option Int) (frameSkip : Nat) (hasCb : Bool) :
    ∀ pr ∈ (detect_scenes sm dense sparse video startPos duration endTime
        frameSkip hasCb).readLog,
      pr.2 = (isProcessingRequired dense pr.1 || isProcessingRequired dense (pr.1 + 1)) := by
  unfold detect_scenes
  split
  · intro pr hpr; simp at hpr
  · split
    · intro pr hpr; simp at hpr
    · split
      · intro pr hpr; simp at hpr
      · split
        · intro pr hpr; simp at hpr
        · exact detectLoop_readLog_inv _ _ _ _ _ _ _ _ _ (by intro pr hpr; simp at hpr)

/-- Witness for the amended C3: the no-detector single-frame run performs a
decoded read at position 0, matching the all-quantified condition. -/
theorem c3_decode_condition_amended_witness :
    (0, true) ∈ (detect_scenes ⟨[], [], 0, 0, none, false, 1, false⟩ [] []
        ⟨1, 640, fun _ => 7, fun x _ => x⟩ 0 none none 0 false).readLog ∧
    (0, true).2 = (isProcessingRequired [] (0, true).1 ||
      isProcessingRequired [] ((0, true).1 + 1)) :=
  ⟨by decide,
    c3_decode_condition_amended ⟨[], [], 0, 0, none, false, 1, false⟩ [] []
      ⟨1, 640, fun _ => 7, fun x _ => x⟩ 0 none none 0 false (0, true) (by decide)⟩

/-- C4 as stated is false on the code: for width 400 and target 256 the
factor is `max 1 (400 / 256) = 1`, but the effective width 400 is not below
`1.5 * 256 = 384` (stated multiplicatively as `2 * 400 < 3 * 256`). -/
theorem c4_downscale_cex :
    compute_downscale_factor 400 256 = 1 ∧ (256 : Nat) ≤ 400 ∧
    ¬ (2 * (400 / compute_downscale_factor 400 256) < 3 * 256) := by
  decide

/-- C4 amended: the factor equals `max 1 (W / T)` with integer division,
and whenever `W ≥ T` the effective width `W / factor` lies in `[T, 2*T)`
(the upper bound `1.5*T` of the claim only holds once the factor is at
least 2; with factor 1 the width can reach up to `2*T - 1`). -/
theorem c4_downscale_amended (w t : Nat) (hw : 1 ≤ w) (ht : 1 ≤ t) :
    compute_downscale_factor w t = max 1 (w / t) ∧
    (t ≤ w → t ≤ w / compute_downscale_factor w t ∧
      w / compute_downscale_factor w t < 2 * t) :=
  ⟨compute_downscale_factor_eq_max w t hw ht, fun hwt => effective_width_bounds w t ht hwt⟩

/-- Witness for the amended C4 at width 640, target 256. -/
theorem c4_downscale_amended_witness :
    (1 : Nat) ≤ 640 ∧ (1 : Nat) ≤ 256 ∧
    (compute_downscale_factor 640 256 = max 1 (640 / 256) ∧
      ((256 : Nat) ≤ 640 → 256 ≤ 640 / compute_downscale_factor 640 256 ∧
        640 / compute_downscale_factor 640 256 < 2 * 256)) :=
  ⟨by decide, by decide, c4_downscale_amended 640 256 (by decide) (by decide)⟩

/-- C5: `detect_scenes` with `frame_skip > 0` on a manager holding a
StatsManager raises `ValueError` in its first statement: no read (decoded
or grab) is performed, no callback fires, and the manager state (cut list,
event list, frame counters) is exactly as before the call. -/
theorem c5_frame_skip_stats (sm : SMState) (dense : List Detector)
    (sparse : List SparseDetector) (video : Video) (startPos : Nat)
    (duration endTime : Option Int) (frameSkip : Nat) (hasCb : Bool)
    (hskip : 0 < frameSkip) (hstats : sm.statsPresent = true) :
    detect_scenes sm dense sparse video startPos duration endTime frameSkip hasCb
      = ⟨sm, some .frameSkipWithStats, [], [], [], none⟩ := by
  unfold detect_scenes
  rw [if_pos ⟨hskip, hstats⟩]

/-- Witness for C5: a stats-bearing manager with `frame_skip = 1`. -/
theorem c5_frame_skip_stats_witness :
    0 < 1 ∧ (⟨[], [], 0, 0, none, true, 1, false⟩ : SMState).statsPresent = true ∧
    detect_scenes ⟨[], [], 0, 0, none, true, 1, false⟩ [] []
        ⟨3, 640, fun _ => 0, fun x _ => x⟩ 0 none none 1 false
      = ⟨⟨[], [], 0, 0, none, true, 1, false⟩, some .frameSkipWithStats, [], [], [], none⟩ :=
  ⟨by decide, rfl,
    c5_frame_skip_stats ⟨[], [], 0, 0, none, true, 1, false⟩ [] []
      ⟨3, 640, fun _ => 0, fun x _ => x⟩ 0 none none 1 false (by decide) rfl⟩

/-- C6: with a registered callback, `_process_frame` invokes the callback
exactly once per detector (dense or sparse) whose `process_frame` returned
a non-empty list on this frame, with arguments `(frame_im, frame_num)`, in
detector order; detectors returning an empty list trigger no invocation. -/
theorem c6_callback_per_detector (dense : List Detector) (sparse : List SparseDetector)
    (frameNum : Nat) (frameIm : Option Nat) (cl : List Nat) (el : List (Nat × Nat))
    (log : List (Option Nat × Nat)) (hasCb : Bool) (hcb : hasCb = true) :
    (process_frame dense sparse frameNum frameIm hasCb cl el log).2.2 =
      log ++ List.replicate
        ((dense.countP fun d => !(d.processFrame frameNum frameIm).isEmpty) +
          (sparse.countP fun d => !(d.processFrame frameNum frameIm).isEmpty))
        (frameIm, frameNum) := by
  subst hcb
  show (processSparse frameNum frameIm true sparse el
      (processDense frameNum frameIm true dense cl log).2).2 = _
  rw [processSparse_log, processDense_log, List.append_assoc, ← List.replicate_add]

/-- Witness for C6: two dense detectors (one firing, one silent) and one
firing sparse detector produce exactly two callback invocations. -/
theorem c6_callback_per_detector_witness :
    (process_frame
        [⟨fun _ => true, fun _ _ => [5], fun _ _ => []⟩,
          ⟨fun _ => true, fun _ _ => [], fun _ _ => []⟩]
        [⟨fun _ _ => [(1, 2)]⟩] 5 (some 9) true [] [] []).2.2 =
      [] ++ List.replicate
        ((([⟨fun _ => true, fun _ _ => [5], fun _ _ => []⟩,
            ⟨fun _ => true, fun _ _ => [], fun _ _ => []⟩] : List Detector).countP
              fun d => !(d.processFrame 5 (some 9)).isEmpty) +
          (([⟨fun _ _ => [(1, 2)]⟩] : List SparseDetector).countP
              fun d => !(d.processFrame 5 (some 9)).isEmpty))
        (some 9, 5) :=
  c6_callback_per_detector
    [⟨fun _ => true, fun _ _ => [5], fun _ _ => []⟩,
      ⟨fun _ => true, fun _ _ => [], fun _ _ => []⟩]
    [⟨fun _ _ => [(1, 2)]⟩] 5 (some 9) [] [] [] true rfl

/-- C7: for a non-empty scene `[s, e)` and `num_images = n ≥ 1`, the sample
computation of `save_images` yields exactly `n` frame numbers, all within
`[s, e)`, in ascending (non-decreasing) order. -/
theorem c7_save_images_samples (n m s e : Nat) (hse : s < e) (hn : 1 ≤ n) :
    (sceneSampleFrames n m s e).length = n ∧
    (∀ x ∈ sceneSampleFrames n m s e, s ≤ x ∧ x < e) ∧
    (sceneSampleFrames n m s e).Pairwise (· ≤ ·) := by
  obtain ⟨hps, hpm, hpl⟩ := paddedSceneRange_facts n s e hse hn
  have hn0 : 0 < n := hn
  have hsum : (arraySplitSizes (paddedSceneRange n s e).length n).sum
      = (paddedSceneRange n s e).length := arraySplitSizes_sum _ n hn0
  have hpos : ∀ k ∈ arraySplitSizes (paddedSceneRange n s e).length n, 0 < k :=
    arraySplitSizes_pos _ n hpl hn0
  have hPne : ∀ b ∈ arraySplit (paddedSceneRange n s e) n, b ≠ [] :=
    splitBySizes_ne_nil _ _ hpos (Nat.le_of_eq hsum)
  have hPsort : ∀ b ∈ arraySplit (paddedSceneRange n s e) n, b.Pairwise (· ≤ ·) :=
    splitBySizes_sorted _ _ hps
  have hPchain : (arraySplit (paddedSceneRange n s e) n).Pairwise
      (fun b c => ∀ x ∈ b, ∀ y ∈ c, x ≤ y) := splitBySizes_chain _ _ hps
  have hPbd : ∀ b ∈ arraySplit (paddedSceneRange n s e) n, ∀ x ∈ b, s ≤ x ∧ x < e :=
    fun b hb x hx => hpm x (splitBySizes_subset _ _ b hb x hx)
  have henum : (arraySplit (paddedSceneRange n s e) n).enum
      = List.enumFrom 0 (arraySplit (paddedSceneRange n s e) n) := rfl
  refine ⟨?_, ?_, ?_⟩
  · unfold sceneSampleFrames
    rw [List.length_map, List.enum_length]
    unfold arraySplit
    rw [splitBySizes_length, arraySplitSizes_length _ n hn0]
  · intro x hx
    unfold sceneSampleFrames at hx
    rw [henum] at hx
    exact sample_map_bounds n m s e _ 0 hPne hPsort hPbd x hx
  · unfold sceneSampleFrames
    rw [henum]
    exact sample_map_pairwise n m _ 0 hPne hPsort hPchain

/-- Witness for C7: three images with margin 1 from scene `[0, 10)`. -/
theorem c7_save_images_samples_witness :
    (0 : Nat) < 10 ∧ (1 : Nat) ≤ 3 ∧
    ((sceneSampleFrames 3 1 0 10).length = 3 ∧
      (∀ x ∈ sceneSampleFrames 3 1 0 10, 0 ≤ x ∧ x < 10) ∧
      (sceneSampleFrames 3 1 0 10).Pairwise (· ≤ ·)) :=
  ⟨by decide, by decide, c7_save_images_samples 3 1 0 10 (by decide) (by decide)⟩

/-- C8: the claim states `input_videos` returns True on success, which is
the documented intent (the spec itself flags the source line as a bug).
The code instead ends with `return self.video_manager is None`, which is
False on every successful construction: evaluating the embedding on a
successful outcome returns `false`. -/
theorem c8_input_videos_returns_false :
    input_videos ⟨none, none⟩ (.success 0 0) = .ret ⟨some 0, some 0⟩ false := rfl

/-- C9: when no base timecode was ever recorded and none is supplied, the
three accessors return empty lists instead of failing. -/
theorem c9_empty_when_no_base (sm : SMState) (hbase : sm.baseTimecode = none) :
    get_scene_list sm none = [] ∧ get_cut_list sm none = [] ∧
    get_event_list sm none = [] := by
  have h : resolveBase sm none = none := by simp [resolveBase, hbase]
  refine ⟨?_, ?_, ?_⟩ <;> simp [get_scene_list, get_cut_list, get_event_list, h]

/-- Witness for C9: a manager with recorded cuts and events but no base
timecode. -/
theorem c9_empty_when_no_base_witness :
    get_scene_list ⟨[3], [(1, 2)], 5, 0, none, false, 1, false⟩ none = [] ∧
    get_cut_list ⟨[3], [(1, 2)], 5, 0, none, false, 1, false⟩ none = [] ∧
    get_event_list ⟨[3], [(1, 2)], 5, 0, none, false, 1, false⟩ none = [] :=
  c9_empty_when_no_base ⟨[3], [(1, 2)], 5, 0, none, false, 1, false⟩ rfl

/-- C10: `save_images` with an empty scene list returns the empty mapping
for any (even invalid) remaining arguments; with a non-empty scene list it
raises `ValueError` exactly when `num_images ≤ 0` or `frame_margin < 0`. -/
theorem c10_save_images_validation (sceneList : List (Nat × Nat))
    (numImages frameMargin : Int) :
    (sceneList = [] → save_images sceneList numImages frameMargin = .ok []) ∧
    (sceneList ≠ [] →
      (save_images sceneList numImages frameMargin = .error () ↔
        numImages ≤ 0 ∨ frameMargin < 0)) := by
  constructor
  · intro h; subst h; rfl
  · intro h
    unfold save_images
    rw [if_neg (by simp only [List.isEmpty_iff]; exact h)]
    by_cases hv : numImages ≤ 0 ∨ frameMargin < 0
    · rw [if_pos hv]
      exact iff_of_true rfl hv
    · rw [if_neg hv]
      exact iff_of_false (by simp) hv

/-- Witness for C10: the empty scene list passes with invalid arguments,
and `num_images = 0` on a non-empty list is rejected. -/
theorem c10_save_images_validation_witness :
    save_images [] (-5) (-1) = .ok [] ∧
    (save_images [(0, 10)] 0 1 = .error () ↔ (0 : Int) ≤ 0 ∨ (1 : Int) < 0) :=
  ⟨(c10_save_images_validation [] (-5) (-1)).1 rfl,
    (c10_save_images_validation [(0, 10)] 0 1).2 (by decide)⟩

end SceneDetect
